import Mathlib

/-!
Verification of the `RunInfo` hyperparameter resolver (`src/stune/utils.py`).

`RunInfo` maps a `/`-delimited key path into a nested configuration tree
(an omegaconf document), optionally sampling a value through an external
trial backend, and memoizes every resolution in a log dictionary.

The embedding below mirrors the Python source:
  * `Value` / `Node` model scalars, lists and dict nodes of the tree;
  * `descend` models the segment-by-segment indexing loop of
    `RunInfo.__getitem__` (dict indexing with a missing key raises a
    `KeyError`, indexing into a scalar or list with a string raises a
    `TypeError`, exactly as in Python);
  * `sampleParam` models `RunInfo._sample_param`;
  * `getItem` models `RunInfo.__getitem__`, `setItem` models
    `RunInfo.__setitem__`; both are written in state-passing style and
    additionally return the trace of trial-suggestion calls made.
-/

set_option autoImplicit false

namespace Stune

/-- A scalar Python value as it occurs in a configuration document.
`vExc` is a Python exception *object* used as a value (the source returns
`NotImplementedError(...)` without raising it). Float literals are kept
exactly as rationals; the resolver never computes with them. -/
inductive Value where
  | vInt : Int → Value
  | vFloat : ℚ → Value
  | vStr : String → Value
  | vBool : Bool → Value
  | vNone : Value
  | vExc : String → Value
  deriving DecidableEq, Repr

/-- A node of the configuration tree: a scalar leaf, an omegaconf
`ListConfig`, or an omegaconf `DictConfig` (association list of entries). -/
inductive Node where
  | scalar : Value → Node
  | list : List Node → Node
  | dict : List (String × Node) → Node

/-- First entry with the given key in a dict node (Python dict lookup). -/
def getEntry (entries : List (String × Node)) (k : String) : Option Node :=
  match entries with
  | [] => none
  | (k', v) :: rest => if k' = k then some v else getEntry rest k

/-- Assignment `d[k] = v` on a dict node: replace the entry if present, append otherwise. -/
def setEntry (entries : List (String × Node)) (k : String) (v : Node) :
    List (String × Node) :=
  match entries with
  | [] => [(k, v)]
  | (k', w) :: rest =>
      if k' = k then (k, v) :: rest else (k', w) :: setEntry rest k v

/-- Lookup in the resolution cache (`self.log`). -/
def logGet (l : List (String × Node)) (i : String) : Option Node :=
  match l with
  | [] => none
  | (k, v) :: rest => if k = i then some v else logGet rest i

/-- Assignment `self.log[i] = v` into the resolution cache. -/
def logSet (l : List (String × Node)) (i : String) (v : Node) :
    List (String × Node) :=
  match l with
  | [] => [(i, v)]
  | (k, w) :: rest => if k = i then (i, v) :: rest else (k, w) :: logSet rest i v

/-- Python `str.split` with a one-character separator, over the character
list: `acc` holds the characters of the current field in reverse. -/
def splitAux : List Char → List Char → List String
  | [], acc => [String.mk acc.reverse]
  | c :: cs, acc =>
      if c = '/' then String.mk acc.reverse :: splitAux cs []
      else splitAux cs (c :: acc)

/-- Splitting `i.split("/")`: always a non-empty list of fields; `"".split("/")`
is `[""]`, adjacent separators produce empty fields, as in Python. -/
def splitPath (i : String) : List String := splitAux i.data []

/-- The scalar string carried by a node, when it is one. -/
def asString : Node → Option String
  | .scalar (.vStr s) => some s
  | _ => none

/-- Lookup `param.get("sample_type", None)`: absent key and a null value both
come back as Python `None`. -/
def getSampleType (entries : List (String × Node)) : Option Node :=
  match getEntry entries "sample_type" with
  | none => none
  | some (.scalar .vNone) => none
  | some n => some n

/-- Errors the resolver can raise. `keyError` carries the missing segment
and the segments successfully traversed before it (omegaconf reports the
missing key and the full key so far). `unsupported` is the
`NotImplementedError` raised for an unrecognized `sample_type` and carries
its message. `recursionError` is Python's `RecursionError`: it arises in
the interpolation-aware model when a `$\x7bhp:...\x7d` interpolation
re-enters a resolution that is already in progress, which in the source
loops forever re-firing the same resolver chain until the stack
overflows. -/
inductive Err where
  | keyError : String → List String → Err
  | typeError : String → Err
  | indexError : Err
  | unsupported : String → Err
  | recursionError : Err
  deriving DecidableEq, Repr

/-- A call made to the trial backend, recorded for the effect trace. -/
inductive TrialCall where
  | categorical : String → Node → TrialCall
  | float : String → Node → Node → TrialCall

/-- The external trial collaborator: `suggest_categorical(key, candidates)`,
`suggest_float(key, low, high)` and a `number` identity. Opaque: the
suggestion functions may return anything. -/
structure Trial where
  number : Int
  suggestCategorical : String → Node → Node
  suggestFloat : String → Node → Node → Node

/-- Python `str(node)` as used by the f-string in the unsupported-tag error.
For a plain string it is the string itself. -/
def pyStr : Node → String
  | .scalar (.vInt n) => toString n
  | .scalar (.vFloat q) => toString q
  | .scalar (.vStr s) => s
  | .scalar (.vBool true) => "True"
  | .scalar (.vBool false) => "False"
  | .scalar .vNone => "None"
  | .scalar (.vExc m) => m
  | .list xs => "[" ++ String.intercalate ", " (xs.attach.map fun x => pyStr x.1) ++ "]"
  | .dict xs =>
      "\x7b" ++
        String.intercalate ", "
          (xs.attach.map fun e => e.1.1 ++ ": " ++ pyStr e.1.2) ++ "\x7d"
decreasing_by
  · simp only [Node.list.sizeOf_spec]
    have := List.sizeOf_lt_of_mem x.2
    omega
  · simp only [Node.dict.sizeOf_spec]
    have h1 := List.sizeOf_lt_of_mem e.2
    obtain ⟨⟨a, b⟩, hm⟩ := e
    simp only [Prod.mk.sizeOf_spec] at h1 ⊢
    omega

/-- Python `tuple(range(low, high + 1))` mapped into config nodes: the inclusive
integer range, empty when `low > high`. -/
def intRange (low high : Int) : List Node :=
  (List.range (high + 1 - low).toNat).map fun k : Nat => .scalar (.vInt (low + (k : Int)))

/-- The message of the `NotImplementedError` object that `_sample_param`
returns (does not raise) when a dict node has no `sample_type`. -/
def dictErrMsg : String :=
  "At the moment it is not possible to return dictionaries when querying parameters."

/-- The descent loop of `__getitem__`: `for key in path: param = param[key]`.
`sofar` is the list of segments already traversed (for the error report).
Indexing a dict with a missing key raises `KeyError`; indexing a scalar or
a list with a string segment raises `TypeError`, as in Python. -/
def descend (n : Node) (path : List String) (sofar : List String) :
    Except Err Node :=
  match path with
  | [] => .ok n
  | k :: rest =>
    match n with
    | .dict entries =>
      match getEntry entries k with
      | some child => descend child rest (sofar ++ [k])
      | none => .error (.keyError k sofar)
    | .scalar _ => .error (.typeError "object is not subscriptable")
    | .list _ => .error (.typeError "list indices must be integers")

/-- Lookup `param["sample_space"]` inside `_sample_param`. -/
def getSampleSpace (entries : List (String × Node)) (key : String) :
    Except Err Node :=
  match getEntry entries "sample_space" with
  | some n => .ok n
  | none => .error (.keyError "sample_space" (splitPath key))

/-- Model of `RunInfo._sample_param(key, param, trial)`, returning the resulting
node together with the trace of trial calls made. With no trial it
returns `param.get("default", None)`. With a trial it dispatches on
`sample_type`; a dict node with no `sample_type` makes it *return* a
`NotImplementedError` object as the value (the source does not raise it). -/
def sampleParam (key : String) (entries : List (String × Node))
    (trial : Option Trial) : Except Err (Node × List TrialCall) :=
  match trial with
  | none => .ok ((getEntry entries "default").getD (.scalar .vNone), [])
  | some t =>
    match getSampleType entries with
    | none => .ok (.scalar (.vExc dictErrMsg), [])
    | some st =>
      match asString st with
      | some tag =>
        if tag = "single_value" then
          match getSampleSpace entries key with
          | .ok ss => .ok (ss, [])
          | .error e => .error e
        else if tag = "categorical" then
          match getSampleSpace entries key with
          | .ok ss => .ok (t.suggestCategorical key ss, [.categorical key ss])
          | .error e => .error e
        else if tag = "float" then
          match getSampleSpace entries key with
          | .ok (.list [a, b]) =>
              .ok (t.suggestFloat key a b, [.float key a b])
          | .ok _ => .error (.typeError "suggest_float expects a two-element bound")
          | .error e => .error e
        else if tag = "range" then
          match getSampleSpace entries key with
          | .ok (.list xs) =>
            match xs[0]?, xs[1]? with
            | some (Node.scalar (Value.vInt low)), some (Node.scalar (Value.vInt high)) =>
                let cands := Node.list (intRange low high)
                .ok (t.suggestCategorical key cands, [.categorical key cands])
            | some _, some _ => .error (.typeError "range expects integer bounds")
            | _, _ => .error .indexError
          | .ok _ => .error (.typeError "object is not subscriptable")
          | .error e => .error e
        else
          .error (.unsupported ("sample_type " ++ pyStr st ++ " is not supported"))
      | none =>
          .error (.unsupported ("sample_type " ++ pyStr st ++ " is not supported"))

/-- The resolver state: the configuration tree, the resolution cache
(`self.log`) and the optional trial, as held by a `RunInfo` instance. -/
structure RunInfo where
  studyName : String
  config : Node
  log : List (String × Node)
  trial : Option Trial

/-- Model of `RunInfo.__getitem__`: a cache hit returns the logged value; otherwise
descend the tree, collapse a dict node through `_sample_param`, store the
result in the cache and return it. Also returns the updated state and the
trace of trial calls made. -/
def getItem (s : RunInfo) (i : String) :
    Except Err Node × RunInfo × List TrialCall :=
  match logGet s.log i with
  | some v => (.ok v, s, [])
  | none =>
    match descend s.config (splitPath i) [] with
    | .error e => (.error e, s, [])
    | .ok (.dict entries) =>
      match sampleParam i entries s.trial with
      | .error e => (.error e, s, [])
      | .ok (v, calls) => (.ok v, { s with log := logSet s.log i v }, calls)
    | .ok n => (.ok n, { s with log := logSet s.log i n }, [])

/-- The write of `__setitem__`: descend `path[:-1]` with the same indexing
semantics as `__getitem__`, then `param[path[-1]] = v` (a dict assignment
always succeeds; assigning into a scalar or list with a string raises
`TypeError`). Returns the updated tree. -/
def setPath (n : Node) (path : List String) (sofar : List String) (v : Node) :
    Except Err Node :=
  match path with
  | [] => .error (.typeError "empty path")
  | [last] =>
    match n with
    | .dict entries => .ok (.dict (setEntry entries last v))
    | .scalar _ => .error (.typeError "object does not support item assignment")
    | .list _ => .error (.typeError "list indices must be integers")
  | k :: rest =>
    match n with
    | .dict entries =>
      match getEntry entries k with
      | some child =>
        match setPath child rest (sofar ++ [k]) v with
        | .ok child' => .ok (.dict (setEntry entries k child'))
        | .error e => .error e
      | none => .error (.keyError k sofar)
    | .scalar _ => .error (.typeError "object is not subscriptable")
    | .list _ => .error (.typeError "list indices must be integers")

/-- Model of `RunInfo.__setitem__`: write `v` into the tree at `i` and then record
`v` in the cache under `i`. On failure (missing parent segment or a
non-dict final container) nothing is mutated. -/
def setItem (s : RunInfo) (i : String) (v : Node) : Except Err Unit × RunInfo :=
  match setPath s.config (splitPath i) [] v with
  | .error e => (.error e, s)
  | .ok config' =>
      (.ok ⟨⟩, { s with config := config', log := logSet s.log i v })

/-- Model of `RunInfo.trial_id`: the trial's `number` when one is active. -/
def trialId (s : RunInfo) : Option Int := s.trial.map (·.number)

/-- Model of `RunInfo.is_log`: the log is always a dict object after construction. -/
def isLog (_ : RunInfo) : Bool := true

/-!
### Interpolation-aware model

`RunInfo.__init__` registers `OmegaConf.register_new_resolver("hp",
lambda param: self[f"hp/..."])`: a configuration value that is the
interpolated string `"$\x7bhp:target\x7d"` is resolved lazily, at the
moment `param[key]` reads it, by a full re-entrant `self["hp/" + target]`
call — which writes the resolution cache. The plain `getItem`/`setItem`
model above treats `param[key]` as a pure lookup; the model below extends
it with this laziness so that cache effects of *failing* operations can be
settled faithfully.

Recursion is modeled with a fuel counter plus the set of paths whose
resolution (or overwrite traversal) is in progress. Re-entering an
in-progress path can never terminate in the source: the re-entrant
`__getitem__` finds the path still uncached (a resolution writes its cache
entry only at its last line), re-reads the same tree nodes, and re-fires
the same in-progress resolver chain, deepening the Python stack until
`RecursionError`; both that re-entry and fuel exhaustion are therefore
modeled as `Err.recursionError`. The `py` resolver (`eval` of arbitrary
Python) is outside the model, as are interpolations embedded inside larger
strings and interpolations fired by the `.get`/`["sample_space"]` reads
inside `_sample_param`.
-/

/-- Recognizes a value that is exactly one `hp` interpolation,
`"$\x7bhp:target\x7d"`, and returns its target. -/
def interpTarget (str : String) : Option String :=
  match str.data with
  | '$' :: '\x7b' :: 'h' :: 'p' :: ':' :: rest =>
    match rest.reverse with
    | '\x7d' :: body => some (String.mk body.reverse)
    | _ => none
  | _ => none

/-- The `hp` interpolation carried by an accessed value, when the value is
an interpolated string; any other node is returned by `param[key]` as-is. -/
def interpOf : Node → Option String
  | .scalar (.vStr str) => interpTarget str
  | _ => none

/-- A pending step of the interpolation-aware interpreter: a full
`__getitem__` call, or the descent loop inside one. Both carry the list of
paths whose resolution is in progress on the call stack. -/
inductive Task where
  | get : List String → String → Task
  | desc : List String → Node → List String → List String → Task

/-- The in-progress set carried by a task. -/
def Task.visitedPaths : Task → List String
  | .get visited _ => visited
  | .desc visited _ _ _ => visited

/-- The interpolation-aware interpreter, structurally recursive on fuel.

`runI fuel (.get visited i) s` is `RunInfo.__getitem__(i)`: cache hit,
else (cutting off a non-terminating re-entry of an in-progress path)
descend, collapse a dict node through `_sample_param`, cache and return.

`runI fuel (.desc visited n path sofar) s` is the descent loop
`for key in path: param = param[key]` started at node `n`: each dict
access whose value is an `hp` interpolation fires a nested re-entrant
`__getitem__` on `"hp/" ++ target` and continues with its result; missing
keys and string-indexing of scalars or lists fail as in the plain
`descend`. -/
def runI : Nat → Task → RunInfo → Except Err Node × RunInfo
  | 0, _, s => (.error .recursionError, s)
  | fuel + 1, .get visited i, s =>
    match logGet s.log i with
    | some v => (.ok v, s)
    | none =>
      if i ∈ visited then (.error .recursionError, s)
      else
        match runI fuel (.desc (i :: visited) s.config (splitPath i) []) s with
        | (.error e, s₁) => (.error e, s₁)
        | (.ok (.dict entries), s₁) =>
          match sampleParam i entries s₁.trial with
          | .error e => (.error e, s₁)
          | .ok (v, _) => (.ok v, { s₁ with log := logSet s₁.log i v })
        | (.ok n, s₁) => (.ok n, { s₁ with log := logSet s₁.log i n })
  | fuel + 1, .desc visited n path sofar, s =>
    match path with
    | [] => (.ok n, s)
    | k :: rest =>
      match n with
      | .dict entries =>
        match getEntry entries k with
        | some child =>
          match interpOf child with
          | some tgt =>
            match runI fuel (.get visited ("hp/" ++ tgt)) s with
            | (.ok child', s₁) =>
                runI fuel (.desc visited child' rest (sofar ++ [k])) s₁
            | (.error e, s₁) => (.error e, s₁)
          | none => runI fuel (.desc visited child rest (sofar ++ [k])) s
        | none => (.error (.keyError k sofar), s)
      | .scalar _ => (.error (.typeError "object is not subscriptable"), s)
      | .list _ => (.error (.typeError "list indices must be integers"), s)

/-- `RunInfo.__getitem__` under the interpolation-aware model: a top-level
resolve starts with no resolution in progress. -/
def getItemI (fuel : Nat) (s : RunInfo) (i : String) :
    Except Err Node × RunInfo :=
  runI fuel (.get [] i) s

/-- The parent traversal and write of `__setitem__` under the
interpolation-aware model: interpolated parent values fire nested
re-entrant `__getitem__` calls (whose cache writes persist), then the
final container takes the assignment. On a success after an interpolated
jump the rebuilt tree idealizes Python's in-place aliasing; every failing
branch — the subject of the claims proved below — is exact. -/
def setPathI (fuel : Nat) (visited : List String) (n : Node)
    (path : List String) (sofar : List String) (v : Node) (s : RunInfo) :
    Except Err Node × RunInfo :=
  match path with
  | [] => (.error (.typeError "empty path"), s)
  | [last] =>
    match n with
    | .dict entries => (.ok (.dict (setEntry entries last v)), s)
    | .scalar _ => (.error (.typeError "object does not support item assignment"), s)
    | .list _ => (.error (.typeError "list indices must be integers"), s)
  | k :: rest =>
    match n with
    | .dict entries =>
      match getEntry entries k with
      | some child =>
        match interpOf child with
        | some tgt =>
          match runI fuel (.get visited ("hp/" ++ tgt)) s with
          | (.ok child', s₁) =>
            match setPathI fuel visited child' rest (sofar ++ [k]) v s₁ with
            | (.ok sub, s₂) => (.ok (.dict (setEntry entries k sub)), s₂)
            | (.error e, s₂) => (.error e, s₂)
          | (.error e, s₁) => (.error e, s₁)
        | none =>
          match setPathI fuel visited child rest (sofar ++ [k]) v s with
          | (.ok sub, s₂) => (.ok (.dict (setEntry entries k sub)), s₂)
          | (.error e, s₂) => (.error e, s₂)
      | none => (.error (.keyError k sofar), s)
    | .scalar _ => (.error (.typeError "object is not subscriptable"), s)
    | .list _ => (.error (.typeError "list indices must be integers"), s)

/-- `RunInfo.__setitem__` under the interpolation-aware model. The
traversal's in-progress set is `[i]`: a re-entrant resolve of `i` fired
while `i`'s own parent chain is being traversed re-reads that chain,
re-fires the same in-progress interpolation chain and never terminates in
the source (see the section comment), so it is cut off as the
`RecursionError` it eventually becomes. -/
def setItemI (fuel : Nat) (s : RunInfo) (i : String) (v : Node) :
    Except Err Unit × RunInfo :=
  match setPathI fuel [i] s.config (splitPath i) [] v s with
  | (.error e, s₁) => (.error e, s₁)
  | (.ok config', s₁) =>
      (.ok (), { s₁ with config := config', log := logSet s₁.log i v })

/-- One resolver state extends another: every cache entry of the smaller
state is still present with the same value, and the tree, trial and study
name are unchanged. Interpolation side effects during a traversal produce
exactly such extensions. -/
def StateExtends (s' s : RunInfo) : Prop :=
  (∀ k w, logGet s.log k = some w → logGet s'.log k = some w) ∧
  s'.config = s.config ∧ s'.trial = s.trial ∧ s'.studyName = s.studyName

/-! ### Helper lemmas -/

theorem logGet_logSet_self (l : List (String × Node)) (i : String) (v : Node) :
    logGet (logSet l i v) i = some v := by
  induction l with
  | nil => simp [logSet, logGet]
  | cons p rest ih =>
    obtain ⟨k, w⟩ := p
    by_cases h : k = i <;> simp [logSet, logGet, h, ih]

/-- A cache hit returns the logged value, leaves the state alone and makes
no trial call. -/
theorem getItem_cached (u : RunInfo) (p : String) (v : Node)
    (h : logGet u.log p = some v) : getItem u p = (.ok v, u, []) := by
  unfold getItem
  rw [h]

/-- After a successful resolution the resolved value is in the cache. -/
theorem getItem_ok_logGet (s : RunInfo) (p : String) (v : Node) (s' : RunInfo)
    (tc : List TrialCall) (h : getItem s p = (.ok v, s', tc)) :
    logGet s'.log p = some v := by
  unfold getItem at h
  split at h
  · simp only [Prod.mk.injEq, Except.ok.injEq] at h
    obtain ⟨h1, h2, h3⟩ := h
    subst h1; subst h2
    assumption
  · split at h
    · simp at h
    · split at h
      · simp at h
      · simp only [Prod.mk.injEq, Except.ok.injEq] at h
        obtain ⟨h1, h2, h3⟩ := h
        subst h1; subst h2
        exact logGet_logSet_self ..
    · simp only [Prod.mk.injEq, Except.ok.injEq] at h
      obtain ⟨h1, h2, h3⟩ := h
      subst h1; subst h2
      exact logGet_logSet_self ..

theorem logGet_logSet_ne (l : List (String × Node)) (i : String) (v : Node)
    (k : String) (h : k ≠ i) : logGet (logSet l i v) k = logGet l k := by
  induction l with
  | nil => simp [logSet, logGet, Ne.symm h]
  | cons p rest ih =>
    obtain ⟨k', w⟩ := p
    by_cases hk : k' = i
    · subst hk
      simp [logSet, logGet, Ne.symm h]
    · simp [logSet, logGet, hk, ih]

theorem stateExtends_refl (s : RunInfo) : StateExtends s s :=
  ⟨fun _ _ hw => hw, rfl, rfl, rfl⟩

theorem stateExtends_trans {s₂ s₁ s : RunInfo} (h₂ : StateExtends s₂ s₁)
    (h₁ : StateExtends s₁ s) : StateExtends s₂ s :=
  ⟨fun k w hw => h₂.1 k w (h₁.1 k w hw),
   h₂.2.1.trans h₁.2.1, h₂.2.2.1.trans h₁.2.2.1, h₂.2.2.2.trans h₁.2.2.2⟩

/-- Writing a key that is absent from the cache extends the state. -/
theorem stateExtends_logSet {s₁ s : RunInfo} (i : String) (v : Node)
    (h : StateExtends s₁ s) (hi : logGet s₁.log i = none) :
    StateExtends { s₁ with log := logSet s₁.log i v } s := by
  refine ⟨fun k w hw => ?_, h.2.1, h.2.2.1, h.2.2.2⟩
  have hk : logGet s₁.log k = some w := h.1 k w hw
  have hne : k ≠ i := fun he => by rw [he, hi] at hk; cases hk
  rw [logGet_logSet_ne _ _ _ _ hne]
  exact hk

/-- In-progress paths are never written: the interpreter leaves the cache
entry of every path in the task's in-progress set untouched (a resolution
writes its own entry only after it left the set, and a re-entry is cut
off before writing). -/
theorem runI_log_inprogress (fuel : Nat) :
    ∀ t s q, q ∈ t.visitedPaths →
      logGet (runI fuel t s).2.log q = logGet s.log q := by
  induction fuel with
  | zero => intro t s q _; rfl
  | succ fuel ih =>
    intro t s q hq
    cases t with
    | get visited i =>
      have hq' : q ∈ visited := hq
      cases hc : logGet s.log i with
      | some v => simp [runI, hc]
      | none =>
        by_cases hv : i ∈ visited
        · simp [runI, hc, hv]
        · have hdd := ih (.desc (i :: visited) s.config (splitPath i) []) s q
            (List.mem_cons_of_mem _ hq')
          cases hrun : runI fuel (.desc (i :: visited) s.config (splitPath i) []) s with
          | mk r₁ s₁ =>
            rw [hrun] at hdd
            have hne : q ≠ i := fun hqi => hv (hqi ▸ hq')
            cases r₁ with
            | error e =>
              simp only [runI, hc, hv, if_false, hrun]
              exact hdd
            | ok n =>
              cases n with
              | dict entries =>
                cases hs : sampleParam i entries s₁.trial with
                | error e =>
                  simp only [runI, hc, hv, if_false, hrun, hs]
                  exact hdd
                | ok r₂ =>
                  obtain ⟨v, calls⟩ := r₂
                  simp only [runI, hc, hv, if_false, hrun, hs]
                  rw [logGet_logSet_ne _ _ _ _ hne]
                  exact hdd
              | scalar w =>
                simp only [runI, hc, hv, if_false, hrun]
                rw [logGet_logSet_ne _ _ _ _ hne]
                exact hdd
              | list xs =>
                simp only [runI, hc, hv, if_false, hrun]
                rw [logGet_logSet_ne _ _ _ _ hne]
                exact hdd
    | desc visited n path sofar =>
      have hq' : q ∈ visited := hq
      cases path with
      | nil => simp [runI]
      | cons k rest =>
        cases n with
        | scalar w => simp [runI]
        | list xs => simp [runI]
        | dict entries =>
          cases hg : getEntry entries k with
          | none => simp [runI, hg]
          | some child =>
            cases hit : interpOf child with
            | none =>
              have h2 := ih (.desc visited child rest (sofar ++ [k])) s q hq'
              simp only [runI, hg, hit]
              exact h2
            | some tgt =>
              have h1 := ih (.get visited ("hp/" ++ tgt)) s q hq'
              cases hrun : runI fuel (.get visited ("hp/" ++ tgt)) s with
              | mk r₁ s₁ =>
                rw [hrun] at h1
                cases r₁ with
                | error e =>
                  simp only [runI, hg, hit, hrun]
                  exact h1
                | ok child' =>
                  have h2 := ih (.desc visited child' rest (sofar ++ [k])) s₁ q hq'
                  simp only [runI, hg, hit, hrun]
                  exact h2.trans h1

/-- The interpreter only extends the state: entries already cached keep
their values, and the tree, trial and study name are untouched. -/
theorem runI_extends (fuel : Nat) :
    ∀ t s, StateExtends (runI fuel t s).2 s := by
  induction fuel with
  | zero => intro t s; exact stateExtends_refl s
  | succ fuel ih =>
    intro t s
    cases t with
    | get visited i =>
      cases hc : logGet s.log i with
      | some v => simp only [runI, hc]; exact stateExtends_refl s
      | none =>
        by_cases hv : i ∈ visited
        · simp only [runI, hc, hv, if_true]; exact stateExtends_refl s
        · have hdd := ih (.desc (i :: visited) s.config (splitPath i) []) s
          have hip := runI_log_inprogress fuel
            (.desc (i :: visited) s.config (splitPath i) []) s i (List.mem_cons_self ..)
          cases hrun : runI fuel (.desc (i :: visited) s.config (splitPath i) []) s with
          | mk r₁ s₁ =>
            rw [hrun] at hdd hip
            have hnone : logGet s₁.log i = none := hip.trans hc
            cases r₁ with
            | error e =>
              simp only [runI, hc, hv, if_false, hrun]
              exact hdd
            | ok n =>
              cases n with
              | dict entries =>
                cases hs : sampleParam i entries s₁.trial with
                | error e =>
                  simp only [runI, hc, hv, if_false, hrun, hs]
                  exact hdd
                | ok r₂ =>
                  obtain ⟨v, calls⟩ := r₂
                  simp only [runI, hc, hv, if_false, hrun, hs]
                  exact stateExtends_logSet i v hdd hnone
              | scalar w =>
                simp only [runI, hc, hv, if_false, hrun]
                exact stateExtends_logSet i (.scalar w) hdd hnone
              | list xs =>
                simp only [runI, hc, hv, if_false, hrun]
                exact stateExtends_logSet i (.list xs) hdd hnone
    | desc visited n path sofar =>
      cases path with
      | nil => simp only [runI]; exact stateExtends_refl s
      | cons k rest =>
        cases n with
        | scalar w => simp only [runI]; exact stateExtends_refl s
        | list xs => simp only [runI]; exact stateExtends_refl s
        | dict entries =>
          cases hg : getEntry entries k with
          | none => simp only [runI, hg]; exact stateExtends_refl s
          | some child =>
            cases hit : interpOf child with
            | none =>
              have h2 := ih (.desc visited child rest (sofar ++ [k])) s
              simp only [runI, hg, hit]
              exact h2
            | some tgt =>
              have h1 := ih (.get visited ("hp/" ++ tgt)) s
              cases hrun : runI fuel (.get visited ("hp/" ++ tgt)) s with
              | mk r₁ s₁ =>
                rw [hrun] at h1
                cases r₁ with
                | error e =>
                  simp only [runI, hg, hit, hrun]
                  exact h1
                | ok child' =>
                  have h2 := ih (.desc visited child' rest (sofar ++ [k])) s₁
                  simp only [runI, hg, hit, hrun]
                  exact stateExtends_trans h2 h1

/-- The overwrite traversal also leaves in-progress cache entries alone
(all its cache effects come from nested interpolation resolutions). -/
theorem setPathI_log_inprogress (fuel : Nat) (path : List String) :
    ∀ visited n sofar v s q, q ∈ visited →
      logGet (setPathI fuel visited n path sofar v s).2.log q = logGet s.log q := by
  induction path with
  | nil => intro visited n sofar v s q _; simp [setPathI]
  | cons k rest ih =>
    intro visited n sofar v s q hq
    cases rest with
    | nil => cases n <;> simp [setPathI]
    | cons r2 rs =>
      cases n with
      | scalar w => simp [setPathI]
      | list xs => simp [setPathI]
      | dict entries =>
        cases hg : getEntry entries k with
        | none => simp [setPathI, hg]
        | some child =>
          cases hit : interpOf child with
          | none =>
            have h2 := ih visited child (sofar ++ [k]) v s q hq
            cases hsp : setPathI fuel visited child (r2 :: rs) (sofar ++ [k]) v s with
            | mk r₂ s₂ =>
              rw [hsp] at h2
              cases r₂ with
              | error e => simp only [setPathI, hg, hit, hsp]; exact h2
              | ok sub => simp only [setPathI, hg, hit, hsp]; exact h2
          | some tgt =>
            have h1 := runI_log_inprogress fuel (.get visited ("hp/" ++ tgt)) s q hq
            cases hrun : runI fuel (.get visited ("hp/" ++ tgt)) s with
            | mk r₁ s₁ =>
              rw [hrun] at h1
              cases r₁ with
              | error e => simp only [setPathI, hg, hit, hrun]; exact h1
              | ok child' =>
                have h2 := ih visited child' (sofar ++ [k]) v s₁ q hq
                cases hsp : setPathI fuel visited child' (r2 :: rs) (sofar ++ [k]) v s₁ with
                | mk r₂ s₂ =>
                  rw [hsp] at h2
                  cases r₂ with
                  | error e =>
                    simp only [setPathI, hg, hit, hrun, hsp]
                    exact h2.trans h1
                  | ok sub =>
                    simp only [setPathI, hg, hit, hrun, hsp]
                    exact h2.trans h1

/-- The overwrite traversal only extends the state and never touches the
tree (the rebuilt tree is returned, not installed, until `setItemI`
succeeds). -/
theorem setPathI_extends (fuel : Nat) (path : List String) :
    ∀ visited n sofar v s, StateExtends (setPathI fuel visited n path sofar v s).2 s := by
  induction path with
  | nil => intro visited n sofar v s; simp only [setPathI]; exact stateExtends_refl s
  | cons k rest ih =>
    intro visited n sofar v s
    cases rest with
    | nil =>
      cases n <;> simp only [setPathI] <;> exact stateExtends_refl s
    | cons r2 rs =>
      cases n with
      | scalar w => simp only [setPathI]; exact stateExtends_refl s
      | list xs => simp only [setPathI]; exact stateExtends_refl s
      | dict entries =>
        cases hg : getEntry entries k with
        | none => simp only [setPathI, hg]; exact stateExtends_refl s
        | some child =>
          cases hit : interpOf child with
          | none =>
            have h2 := ih visited child (sofar ++ [k]) v s
            cases hsp : setPathI fuel visited child (r2 :: rs) (sofar ++ [k]) v s with
            | mk r₂ s₂ =>
              rw [hsp] at h2
              cases r₂ with
              | error e => simp only [setPathI, hg, hit, hsp]; exact h2
              | ok sub => simp only [setPathI, hg, hit, hsp]; exact h2
          | some tgt =>
            have h1 := runI_extends fuel (.get visited ("hp/" ++ tgt)) s
            cases hrun : runI fuel (.get visited ("hp/" ++ tgt)) s with
            | mk r₁ s₁ =>
              rw [hrun] at h1
              cases r₁ with
              | error e => simp only [setPathI, hg, hit, hrun]; exact h1
              | ok child' =>
                have h2 := ih visited child' (sofar ++ [k]) v s₁
                cases hsp : setPathI fuel visited child' (r2 :: rs) (sofar ++ [k]) v s₁ with
                | mk r₂ s₂ =>
                  rw [hsp] at h2
                  cases r₂ with
                  | error e =>
                    simp only [setPathI, hg, hit, hrun, hsp]
                    exact stateExtends_trans h2 h1
                  | ok sub =>
                    simp only [setPathI, hg, hit, hrun, hsp]
                    exact stateExtends_trans h2 h1

/-- Lemma: `_sample_param` makes at most one suggestion call. -/
theorem sampleParam_calls_length (k : String) (e : List (String × Node))
    (t : Option Trial) (v : Node) (calls : List TrialCall)
    (h : sampleParam k e t = .ok (v, calls)) : calls.length ≤ 1 := by
  unfold sampleParam at h
  repeat' split at h
  all_goals try simp_all
  all_goals obtain ⟨-, h2⟩ := h
  all_goals rw [← h2]
  all_goals simp

/-! ### Claims -/

/-- C1. Resolution is idempotent and memoized: after a successful
`Resolve(p)`, a second call returns the identical value and state, makes
no trial call, and does not read the configuration tree (the second call's
result is the same under an arbitrary replacement of the tree); the first
call itself consults the trial at most once for `p`. -/
theorem resolve_idempotent_memoized (s : RunInfo) (p : String) (v : Node)
    (s' : RunInfo) (tc : List TrialCall) (h : getItem s p = (.ok v, s', tc)) :
    getItem s' p = (.ok v, s', []) ∧
    (∀ c : Node, getItem { s' with config := c } p =
      (.ok v, { s' with config := c }, [])) ∧
    tc.length ≤ 1 := by
  have hlog : logGet s'.log p = some v := getItem_ok_logGet s p v s' tc h
  refine ⟨getItem_cached s' p v hlog, fun c => getItem_cached _ p v hlog, ?_⟩
  unfold getItem at h
  cases hc : logGet s.log p with
  | some w =>
    simp only [hc, Prod.mk.injEq] at h
    obtain ⟨-, -, h3⟩ := h
    simp [← h3]
  | none =>
    simp only [hc] at h
    cases hd : descend s.config (splitPath p) [] with
    | error e => simp [hd] at h
    | ok n =>
      simp only [hd] at h
      cases n with
      | dict entries =>
        cases hs : sampleParam p entries s.trial with
        | error e => simp [hs] at h
        | ok r =>
          obtain ⟨v₀, calls₀⟩ := r
          simp only [hs, Prod.mk.injEq, Except.ok.injEq] at h
          obtain ⟨-, -, h3⟩ := h
          rw [← h3]
          exact sampleParam_calls_length p entries s.trial v₀ calls₀ hs
      | scalar w =>
        simp only [Prod.mk.injEq] at h
        obtain ⟨-, -, h3⟩ := h
        simp [← h3]
      | list xs =>
        simp only [Prod.mk.injEq] at h
        obtain ⟨-, -, h3⟩ := h
        simp [← h3]

/-- C1 witness: resolving a plain scalar leaf twice; the second call also
succeeds with the tree replaced by a bare scalar (no traversal). -/
theorem resolve_idempotent_memoized_witness :
    getItem ⟨"s", .dict [("hp", .dict [("lr", .scalar (.vInt 5))])],
             [("hp/lr", .scalar (.vInt 5))], none⟩ "hp/lr" =
      (.ok (.scalar (.vInt 5)),
       ⟨"s", .dict [("hp", .dict [("lr", .scalar (.vInt 5))])],
        [("hp/lr", .scalar (.vInt 5))], none⟩, []) ∧
    getItem ⟨"s", .scalar .vNone, [("hp/lr", .scalar (.vInt 5))], none⟩ "hp/lr" =
      (.ok (.scalar (.vInt 5)),
       ⟨"s", .scalar .vNone, [("hp/lr", .scalar (.vInt 5))], none⟩, []) ∧
    ([] : List TrialCall).length ≤ 1 :=
  have h := resolve_idempotent_memoized
    ⟨"s", .dict [("hp", .dict [("lr", .scalar (.vInt 5))])], [], none⟩
    "hp/lr" (.scalar (.vInt 5))
    ⟨"s", .dict [("hp", .dict [("lr", .scalar (.vInt 5))])],
     [("hp/lr", .scalar (.vInt 5))], none⟩ [] rfl
  ⟨h.1, h.2.1 (.scalar .vNone), h.2.2⟩

/-- C9. `Resolve` never mutates the configuration tree (nor the trial or
the study name): only the resolution cache can change; the tree is touched
only through `Overwrite` (`setItem`), which indeed leaves the cache and
tree consistent with the written value. -/
theorem resolve_mutates_only_cache (s : RunInfo) (i : String) :
    (getItem s i).2.1.config = s.config ∧
    (getItem s i).2.1.trial = s.trial ∧
    (getItem s i).2.1.studyName = s.studyName := by
  unfold getItem
  repeat' split
  all_goals exact ⟨rfl, rfl, rfl⟩

/-- C10 counterexample to the claim as stated: over the tree
`{a: {b: "$\x7bhp:x\x7d"}, hp: {x: 1}}`, resolving `a/b/c` reads `a/b`,
whose value fires the lazy `hp` resolver and caches `hp/x → 1`, and then
fails indexing the resolved `1` with `"c"` — so a failing `Resolve`
changed the cache: it added an entry for another path. -/
theorem failing_resolve_caches_another_path :
    getItemI 20
      ⟨"s", .dict [("a", .dict [("b", .scalar (.vStr "$\x7bhp:x\x7d"))]),
                   ("hp", .dict [("x", .scalar (.vInt 1))])], [], none⟩ "a/b/c" =
      (.error (.typeError "object is not subscriptable"),
       ⟨"s", .dict [("a", .dict [("b", .scalar (.vStr "$\x7bhp:x\x7d"))]),
                    ("hp", .dict [("x", .scalar (.vInt 1))])],
        [("hp/x", .scalar (.vInt 1))], none⟩) := rfl

/-- C10 amended. A failing `Resolve(p)` or `Overwrite(p, v)` leaves the
configuration tree unchanged, keeps every cache entry that existed before
the call with its value, and neither adds nor changes the cache entry for
`p` itself; however, it may add entries for other paths that lazy
`hp` interpolation successfully resolved during the traversal, so the
cache is not in general left exactly as it was. -/
theorem failing_ops_cache_amended (fuel₁ fuel₂ : Nat) (s u sg su : RunInfo)
    (p p' : String) (v : Node) (e e' : Err)
    (hg : getItemI fuel₁ s p = (.error e, sg))
    (hs : setItemI fuel₂ u p' v = (.error e', su)) :
    (logGet sg.log p = logGet s.log p ∧
     (∀ k w, logGet s.log k = some w → logGet sg.log k = some w) ∧
     sg.config = s.config) ∧
    (logGet su.log p' = logGet u.log p' ∧
     (∀ k w, logGet u.log k = some w → logGet su.log k = some w) ∧
     su.config = u.config) := by
  constructor
  · unfold getItemI at hg
    cases fuel₁ with
    | zero =>
      simp only [runI, Prod.mk.injEq] at hg
      obtain ⟨-, h2⟩ := hg
      subst h2
      exact ⟨rfl, fun k w hw => hw, rfl⟩
    | succ f =>
      cases hc : logGet s.log p with
      | some w => simp [runI, hc] at hg
      | none =>
        have hip := runI_log_inprogress f
          (.desc (p :: []) s.config (splitPath p) []) s p (List.mem_cons_self ..)
        have hext := runI_extends f (.desc (p :: []) s.config (splitPath p) []) s
        cases hrun : runI f (.desc (p :: []) s.config (splitPath p) []) s with
        | mk r₁ s₁ =>
          rw [hrun] at hip hext
          simp only [runI, hc, List.not_mem_nil, if_false, hrun] at hg
          cases r₁ with
          | error e₁ =>
            simp only [Prod.mk.injEq] at hg
            obtain ⟨-, h2⟩ := hg
            subst h2
            exact ⟨hip.trans hc, hext.1, hext.2.1⟩
          | ok n =>
            cases n with
            | dict entries =>
              cases hsp : sampleParam p entries s₁.trial with
              | error e₁ =>
                simp only [hsp, Prod.mk.injEq] at hg
                obtain ⟨-, h2⟩ := hg
                subst h2
                exact ⟨hip.trans hc, hext.1, hext.2.1⟩
              | ok r₂ =>
                obtain ⟨w, calls⟩ := r₂
                simp [hsp] at hg
            | scalar w => simp at hg
            | list xs => simp at hg
  · unfold setItemI at hs
    have hip := setPathI_log_inprogress fuel₂ (splitPath p') [p']
      u.config [] v u p' (List.mem_cons_self ..)
    have hext := setPathI_extends fuel₂ (splitPath p') [p'] u.config [] v u
    cases hsp : setPathI fuel₂ [p'] u.config (splitPath p') [] v u with
    | mk r₁ s₁ =>
      rw [hsp] at hip hext
      rw [hsp] at hs
      cases r₁ with
      | error e₁ =>
        simp only [Prod.mk.injEq] at hs
        obtain ⟨-, h2⟩ := hs
        subst h2
        exact ⟨hip, hext.1, hext.2.1⟩
      | ok cfg' => simp at hs

/-- C10 witness: the failing interpolated resolve of `a/b/c` (which cached
`hp/x`) left no entry for `a/b/c` itself, and a failing overwrite under a
missing parent preserved the pre-existing entry, added nothing for its own
path, and left the tree unchanged. -/
theorem failing_ops_cache_amended_witness :
    logGet [("hp/x", Node.scalar (.vInt 1))] "a/b/c" = logGet [] "a/b/c" ∧
    (⟨"s", .dict [("a", .dict [("b", .scalar (.vStr "$\x7bhp:x\x7d"))]),
                  ("hp", .dict [("x", .scalar (.vInt 1))])],
      [("hp/x", .scalar (.vInt 1))], none⟩ : RunInfo).config =
      (⟨"s", .dict [("a", .dict [("b", .scalar (.vStr "$\x7bhp:x\x7d"))]),
                    ("hp", .dict [("x", .scalar (.vInt 1))])], [], none⟩ : RunInfo).config ∧
    logGet [("pre", Node.scalar (.vInt 9))] "c/d" =
      logGet [("pre", Node.scalar (.vInt 9))] "c/d" ∧
    logGet [("pre", Node.scalar (.vInt 9))] "pre" = some (.scalar (.vInt 9)) :=
  have h := failing_ops_cache_amended 20 20
    ⟨"s", .dict [("a", .dict [("b", .scalar (.vStr "$\x7bhp:x\x7d"))]),
                 ("hp", .dict [("x", .scalar (.vInt 1))])], [], none⟩
    ⟨"s", .dict [("a", .scalar (.vInt 1))], [("pre", .scalar (.vInt 9))], none⟩
    ⟨"s", .dict [("a", .dict [("b", .scalar (.vStr "$\x7bhp:x\x7d"))]),
                 ("hp", .dict [("x", .scalar (.vInt 1))])],
     [("hp/x", .scalar (.vInt 1))], none⟩
    ⟨"s", .dict [("a", .scalar (.vInt 1))], [("pre", .scalar (.vInt 9))], none⟩
    "a/b/c" "c/d" (.scalar (.vInt 2))
    (.typeError "object is not subscriptable") (.keyError "c" []) rfl rfl
  ⟨h.1.1, h.1.2.2, h.2.1, h.2.2.1 "pre" (.scalar (.vInt 9)) rfl⟩

/-- C3. A SampleSpec reached with no active trial resolves to its
`default` entry, or to `None` when no default is present, as a normal
(non-error) outcome, and a repeated call returns the same value from the
cache. -/
theorem resolve_default_without_trial (s : RunInfo) (p : String)
    (d : List (String × Node))
    (hlog : logGet s.log p = none) (htrial : s.trial = none)
    (hdesc : descend s.config (splitPath p) [] = .ok (.dict d)) :
    getItem s p =
      (.ok ((getEntry d "default").getD (.scalar .vNone)),
       { s with log :=
          logSet s.log p ((getEntry d "default").getD (.scalar .vNone)) }, []) ∧
    getItem
      { s with log :=
          logSet s.log p ((getEntry d "default").getD (.scalar .vNone)) } p =
      (.ok ((getEntry d "default").getD (.scalar .vNone)),
       { s with log :=
          logSet s.log p ((getEntry d "default").getD (.scalar .vNone)) }, []) := by
  have h1 : getItem s p =
      (.ok ((getEntry d "default").getD (.scalar .vNone)),
       { s with log :=
          logSet s.log p ((getEntry d "default").getD (.scalar .vNone)) }, []) := by
    unfold getItem
    simp only [hlog, hdesc, htrial, sampleParam]
  exact ⟨h1, getItem_cached _ p _ (logGet_logSet_self ..)⟩

/-- C3 witness: a SampleSpec with `default = 32` and no trial resolves to
`32`, twice. -/
theorem resolve_default_without_trial_witness :
    getItem ⟨"s", .dict [("hp", .dict [("bs", .dict [("default", .scalar (.vInt 32))])])],
             [], none⟩ "hp/bs" =
      (.ok (.scalar (.vInt 32)),
       ⟨"s", .dict [("hp", .dict [("bs", .dict [("default", .scalar (.vInt 32))])])],
        [("hp/bs", .scalar (.vInt 32))], none⟩, []) ∧
    getItem ⟨"s", .dict [("hp", .dict [("bs", .dict [("default", .scalar (.vInt 32))])])],
             [("hp/bs", .scalar (.vInt 32))], none⟩ "hp/bs" =
      (.ok (.scalar (.vInt 32)),
       ⟨"s", .dict [("hp", .dict [("bs", .dict [("default", .scalar (.vInt 32))])])],
        [("hp/bs", .scalar (.vInt 32))], none⟩, []) :=
  resolve_default_without_trial
    ⟨"s", .dict [("hp", .dict [("bs", .dict [("default", .scalar (.vInt 32))])])],
     [], none⟩ "hp/bs" [("default", .scalar (.vInt 32))] rfl rfl rfl

/-- C4. After a successful `Overwrite(p, v)`, resolving `p` returns
exactly `v` with no trial call, and does so independently of the
configuration tree (so a SampleSpec defined at `p` is never consulted). -/
theorem overwrite_then_resolve (s : RunInfo) (p : String) (v : Node)
    (s' : RunInfo) (h : setItem s p v = (.ok (), s')) :
    getItem s' p = (.ok v, s', []) ∧
    ∀ c : Node, getItem { s' with config := c } p =
      (.ok v, { s' with config := c }, []) := by
  unfold setItem at h
  cases hsp : setPath s.config (splitPath p) [] v with
  | error e => simp [hsp] at h
  | ok cfg' =>
    simp only [hsp, Prod.mk.injEq] at h
    obtain ⟨-, h2⟩ := h
    have hlog : logGet s'.log p = some v := by
      rw [← h2]
      exact logGet_logSet_self ..
    exact ⟨getItem_cached s' p v hlog, fun c => getItem_cached _ p v hlog⟩

/-- C4 witness: overwriting `hp/beta` with `0.1` over a tree that defines
a float SampleSpec there; the subsequent resolve returns `0.1` with no
trial call, and still would with the tree replaced by a bare scalar. -/
theorem overwrite_then_resolve_witness :
    getItem ⟨"s",
       .dict [("hp", .dict [("beta", .scalar (.vFloat (1/10)))])],
       [("hp/beta", .scalar (.vFloat (1/10)))],
       some ⟨7, fun _ c => c, fun _ a _ => a⟩⟩ "hp/beta" =
      (.ok (.scalar (.vFloat (1/10))),
       ⟨"s", .dict [("hp", .dict [("beta", .scalar (.vFloat (1/10)))])],
        [("hp/beta", .scalar (.vFloat (1/10)))],
        some ⟨7, fun _ c => c, fun _ a _ => a⟩⟩, []) ∧
    getItem ⟨"s", .scalar .vNone,
       [("hp/beta", .scalar (.vFloat (1/10)))],
       some ⟨7, fun _ c => c, fun _ a _ => a⟩⟩ "hp/beta" =
      (.ok (.scalar (.vFloat (1/10))),
       ⟨"s", .scalar .vNone, [("hp/beta", .scalar (.vFloat (1/10)))],
        some ⟨7, fun _ c => c, fun _ a _ => a⟩⟩, []) :=
  have h := overwrite_then_resolve
    ⟨"s",
     .dict [("hp", .dict [("beta",
        .dict [("sample_type", .scalar (.vStr "float")),
               ("sample_space", .list [.scalar (.vInt 0), .scalar (.vInt 1)])])])],
     [], some ⟨7, fun _ c => c, fun _ a _ => a⟩⟩
    "hp/beta" (.scalar (.vFloat (1/10)))
    ⟨"s", .dict [("hp", .dict [("beta", .scalar (.vFloat (1/10)))])],
     [("hp/beta", .scalar (.vFloat (1/10)))],
     some ⟨7, fun _ c => c, fun _ a _ => a⟩⟩ rfl
  ⟨h.1, h.2 (.scalar .vNone)⟩

/-- C8. A SampleSpec tagged `single_value` resolves, under an active
trial, to its `sample_space` payload verbatim, and the trial-call trace is
empty: no suggestion method is invoked. -/
theorem single_value_returns_space_verbatim (s : RunInfo) (p : String)
    (t : Trial) (d : List (String × Node)) (ss : Node)
    (hlog : logGet s.log p = none) (htrial : s.trial = some t)
    (hdesc : descend s.config (splitPath p) [] = .ok (.dict d))
    (hst : getSampleType d = some (.scalar (.vStr "single_value")))
    (hss : getEntry d "sample_space" = some ss) :
    getItem s p = (.ok ss, { s with log := logSet s.log p ss }, []) := by
  unfold getItem
  simp only [hlog, hdesc, htrial]
  unfold sampleParam
  simp [hst, asString, getSampleSpace, hss]

/-- C8 witness: `single_value` with payload `42` under an active trial
whose suggestion functions would return a marker value, which never shows
up. -/
theorem single_value_returns_space_verbatim_witness :
    getItem ⟨"s",
       .dict [("hp", .dict [("act",
          .dict [("sample_type", .scalar (.vStr "single_value")),
                 ("sample_space", .scalar (.vInt 42))])])],
       [], some ⟨3, fun _ _ => .scalar (.vStr "marker"),
                 fun _ _ _ => .scalar (.vStr "marker")⟩⟩ "hp/act" =
      (.ok (.scalar (.vInt 42)),
       ⟨"s", .dict [("hp", .dict [("act",
          .dict [("sample_type", .scalar (.vStr "single_value")),
                 ("sample_space", .scalar (.vInt 42))])])],
        [("hp/act", .scalar (.vInt 42))],
        some ⟨3, fun _ _ => .scalar (.vStr "marker"),
              fun _ _ _ => .scalar (.vStr "marker")⟩⟩, []) :=
  single_value_returns_space_verbatim
    ⟨"s", .dict [("hp", .dict [("act",
       .dict [("sample_type", .scalar (.vStr "single_value")),
              ("sample_space", .scalar (.vInt 42))])])],
     [], some ⟨3, fun _ _ => .scalar (.vStr "marker"),
               fun _ _ _ => .scalar (.vStr "marker")⟩⟩
    "hp/act" ⟨3, fun _ _ => .scalar (.vStr "marker"),
              fun _ _ _ => .scalar (.vStr "marker")⟩
    [("sample_type", .scalar (.vStr "single_value")),
     ("sample_space", .scalar (.vInt 42))]
    (.scalar (.vInt 42)) rfl rfl rfl rfl rfl

/-- The candidate list built for a `range` SampleSpec holds exactly the
integers of the inclusive interval. -/
theorem mem_intRange (low high z : Int) :
    Node.scalar (.vInt z) ∈ intRange low high ↔ low ≤ z ∧ z ≤ high := by
  constructor
  · intro hm
    unfold intRange at hm
    obtain ⟨k, hk, he⟩ := List.mem_map.mp hm
    rw [List.mem_range] at hk
    simp only [Node.scalar.injEq, Value.vInt.injEq] at he
    omega
  · rintro ⟨hl, hr⟩
    unfold intRange
    refine List.mem_map.mpr ⟨(z - low).toNat, ?_, ?_⟩
    · rw [List.mem_range]
      omega
    · simp only [Node.scalar.injEq, Value.vInt.injEq]
      omega

/-- C5. A `range` SampleSpec with integer bounds `(low, high)` resolves,
under an active trial, by one categorical suggestion keyed by the path
over exactly the integers of `[low, high]` inclusive, and returns the
trial's suggestion (which is then cached). -/
theorem range_expands_to_inclusive_interval (s : RunInfo) (p : String)
    (t : Trial) (d : List (String × Node)) (ss : List Node) (low high : Int)
    (hlog : logGet s.log p = none) (htrial : s.trial = some t)
    (hdesc : descend s.config (splitPath p) [] = .ok (.dict d))
    (hst : getSampleType d = some (.scalar (.vStr "range")))
    (hss : getEntry d "sample_space" = some (.list ss))
    (h0 : ss[0]? = some (.scalar (.vInt low)))
    (h1 : ss[1]? = some (.scalar (.vInt high))) :
    getItem s p =
      (.ok (t.suggestCategorical p (.list (intRange low high))),
       { s with log :=
          logSet s.log p (t.suggestCategorical p (.list (intRange low high))) },
       [.categorical p (.list (intRange low high))]) ∧
    ∀ z : Int, Node.scalar (.vInt z) ∈ intRange low high ↔ low ≤ z ∧ z ≤ high := by
  refine ⟨?_, fun z => mem_intRange low high z⟩
  unfold getItem
  simp only [hlog, hdesc, htrial]
  unfold sampleParam
  simp [hst, asString, getSampleSpace, hss, h0, h1]

/-- C5 witness: `sample_space = [1, 3]` offers exactly `[1, 2, 3]` to the
categorical suggestion (the stub trial returns the candidate list itself,
making the offered set observable); `2` is a candidate, `4` is not. -/
theorem range_expands_to_inclusive_interval_witness :
    getItem ⟨"s",
       .dict [("hp", .dict [("n",
          .dict [("sample_type", .scalar (.vStr "range")),
                 ("sample_space", .list [.scalar (.vInt 1), .scalar (.vInt 3)])])])],
       [], some ⟨1, fun _ c => c, fun _ a _ => a⟩⟩ "hp/n" =
      (.ok (.list [.scalar (.vInt 1), .scalar (.vInt 2), .scalar (.vInt 3)]),
       ⟨"s", .dict [("hp", .dict [("n",
          .dict [("sample_type", .scalar (.vStr "range")),
                 ("sample_space", .list [.scalar (.vInt 1), .scalar (.vInt 3)])])])],
        [("hp/n", .list [.scalar (.vInt 1), .scalar (.vInt 2), .scalar (.vInt 3)])],
        some ⟨1, fun _ c => c, fun _ a _ => a⟩⟩,
       [.categorical "hp/n"
          (.list [.scalar (.vInt 1), .scalar (.vInt 2), .scalar (.vInt 3)])]) ∧
    Node.scalar (.vInt 2) ∈ intRange 1 3 ∧
    Node.scalar (.vInt 4) ∉ intRange 1 3 :=
  have h := range_expands_to_inclusive_interval
    ⟨"s", .dict [("hp", .dict [("n",
       .dict [("sample_type", .scalar (.vStr "range")),
              ("sample_space", .list [.scalar (.vInt 1), .scalar (.vInt 3)])])])],
     [], some ⟨1, fun _ c => c, fun _ a _ => a⟩⟩
    "hp/n" ⟨1, fun _ c => c, fun _ a _ => a⟩
    [("sample_type", .scalar (.vStr "range")),
     ("sample_space", .list [.scalar (.vInt 1), .scalar (.vInt 3)])]
    [.scalar (.vInt 1), .scalar (.vInt 3)] 1 3
    rfl rfl rfl rfl rfl rfl rfl
  ⟨h.1, (h.2 2).mpr (by omega), fun hm => by have := (h.2 4).mp hm; omega⟩

/-- C7. A SampleSpec whose `sample_type` is a string other than the four
recognized tags makes resolution under an active trial raise the
`NotImplementedError` whose message names the tag; the state is unchanged
and no trial call is made. -/
theorem unsupported_tag_raises (s : RunInfo) (p tag : String) (t : Trial)
    (d : List (String × Node))
    (hlog : logGet s.log p = none) (htrial : s.trial = some t)
    (hdesc : descend s.config (splitPath p) [] = .ok (.dict d))
    (hst : getSampleType d = some (.scalar (.vStr tag)))
    (h1 : tag ≠ "single_value") (h2 : tag ≠ "categorical")
    (h3 : tag ≠ "float") (h4 : tag ≠ "range") :
    getItem s p =
      (.error (.unsupported ("sample_type " ++ tag ++ " is not supported")),
       s, []) := by
  unfold getItem
  simp only [hlog, hdesc, htrial]
  unfold sampleParam
  simp [hst, asString, h1, h2, h3, h4, pyStr]

/-- C7 witness: `sample_type = "unknown_tag"` with an active trial raises
the unsupported-tag error naming `"unknown_tag"`. -/
theorem unsupported_tag_raises_witness :
    getItem ⟨"s",
       .dict [("hp", .dict [("x",
          .dict [("sample_type", .scalar (.vStr "unknown_tag")),
                 ("sample_space", .scalar (.vInt 1))])])],
       [], some ⟨2, fun _ c => c, fun _ a _ => a⟩⟩ "hp/x" =
      (.error (.unsupported "sample_type unknown_tag is not supported"),
       ⟨"s", .dict [("hp", .dict [("x",
          .dict [("sample_type", .scalar (.vStr "unknown_tag")),
                 ("sample_space", .scalar (.vInt 1))])])],
        [], some ⟨2, fun _ c => c, fun _ a _ => a⟩⟩, []) :=
  unsupported_tag_raises
    ⟨"s", .dict [("hp", .dict [("x",
       .dict [("sample_type", .scalar (.vStr "unknown_tag")),
              ("sample_space", .scalar (.vInt 1))])])],
     [], some ⟨2, fun _ c => c, fun _ a _ => a⟩⟩
    "hp/x" "unknown_tag" ⟨2, fun _ c => c, fun _ a _ => a⟩
    [("sample_type", .scalar (.vStr "unknown_tag")),
     ("sample_space", .scalar (.vInt 1))]
    rfl rfl rfl rfl (by decide) (by decide) (by decide) (by decide)

/-- Traversal splits over list append: descend the first part, then the
second from where it landed. -/
theorem descend_append (a : List String) (n : Node) (b sofar : List String) :
    descend n (a ++ b) sofar =
      match descend n a sofar with
      | .ok m => descend m b (sofar ++ a)
      | .error e => .error e := by
  induction a generalizing n sofar with
  | nil => simp [descend]
  | cons x xs ih =>
    cases n with
    | dict entries =>
      cases h : getEntry entries x with
      | some child =>
        simp only [List.cons_append, descend, h, List.append_eq]
        rw [ih child (sofar ++ [x])]
        simp
      | none =>
        simp [List.cons_append, descend, h]
    | scalar v => rfl
    | list l => rfl

/-- C6 counterexample to the claim as stated: against the tree
`{a: 1}`, the path `a/b` contains the segment `b`, which does not exist
in the tree; yet the code indexes into the scalar `1` and fails with a
`TypeError`, not a `LookupError` naming `b`. -/
theorem missing_segment_typeerror :
    (getItem ⟨"s", .dict [("a", .scalar (.vInt 1))], [], none⟩ "a/b").1 =
      .error (.typeError "object is not subscriptable") ∧
    (getItem ⟨"s", .dict [("a", .scalar (.vInt 1))], [], none⟩ "a/b").1 ≠
      .error (.keyError "b" ["a"]) := by
  have h : (getItem ⟨"s", .dict [("a", .scalar (.vInt 1))], [], none⟩ "a/b").1 =
      .error (.typeError "object is not subscriptable") := rfl
  exact ⟨h, by rw [h]; simp⟩

/-- C6 amended. For every uncached path whose traversal reaches a dict
node that lacks the next segment (before ever indexing into a non-dict
node), `Resolve` fails with a `KeyError` (a `LookupError`) carrying that
first missing segment and the segments traversed so far; the state is
unchanged and nothing is cached. (A path that indexes into a scalar or
list node instead fails with a `TypeError`.) -/
theorem resolve_missing_key_lookup_error (s : RunInfo) (p k : String)
    (pre rest : List String) (d : List (String × Node))
    (hlog : logGet s.log p = none)
    (hsplit : splitPath p = pre ++ k :: rest)
    (hd : descend s.config pre [] = .ok (.dict d))
    (hmiss : getEntry d k = none) :
    getItem s p = (.error (.keyError k pre), s, []) := by
  have hde : descend s.config (splitPath p) [] = .error (.keyError k pre) := by
    rw [hsplit, descend_append, hd]
    simp [descend, hmiss]
  unfold getItem
  simp [hlog, hde]

/-- C6 witness for the amended claim: `hp/does_not_exist` against
`{hp: {lr: 1}}` fails with a KeyError naming `does_not_exist` under the
traversed prefix `hp`, and caches nothing. -/
theorem resolve_missing_key_lookup_error_witness :
    getItem ⟨"s", .dict [("hp", .dict [("lr", .scalar (.vInt 1))])], [], none⟩
        "hp/does_not_exist" =
      (.error (.keyError "does_not_exist" ["hp"]),
       ⟨"s", .dict [("hp", .dict [("lr", .scalar (.vInt 1))])], [], none⟩, []) :=
  resolve_missing_key_lookup_error
    ⟨"s", .dict [("hp", .dict [("lr", .scalar (.vInt 1))])], [], none⟩
    "hp/does_not_exist" "does_not_exist" ["hp"] []
    [("lr", .scalar (.vInt 1))] rfl rfl rfl rfl

/-- C2, as the code behaves: a dict node with no `sample_type`, reached
under an active trial, does not make `Resolve` fail — `_sample_param`
*returns* the `NotImplementedError` object as a value, and `__getitem__`
caches that non-scalar outcome under the path and returns it. -/
theorem dict_without_tag_returns_exception_object :
    getItem ⟨"s", .dict [("p", .dict [("foo", .scalar (.vInt 1))])], [],
             some ⟨0, fun _ c => c, fun _ a _ => a⟩⟩ "p" =
      (.ok (.scalar (.vExc dictErrMsg)),
       ⟨"s", .dict [("p", .dict [("foo", .scalar (.vInt 1))])],
        [("p", .scalar (.vExc dictErrMsg))],
        some ⟨0, fun _ c => c, fun _ a _ => a⟩⟩, []) := rfl

end Stune
